import Mathlib

/-!
Verification of the YOLACT training/inference core
(`mmdet/models/dense_heads/yolact_head.py`, `mmdet/models/detectors/yolact.py`)
against its natural-language specification.

All tensor values are modelled as rationals (`ℚ`), except the mask-coefficient
activation which is modelled over the reals because it applies `tanh`.
Tensors are modelled as lists (one entry per cell / per anchor), gathered and
scattered exactly as the source does.
-/

namespace Yolact

/-! ### OHEM classification loss (`YOLACTHead.loss_single_OHEM`, lines 480-509) -/

/-- Boolean descending comparison on rationals, used to model `Tensor.topk`
(which returns the k largest entries). -/
def descBle (a b : ℚ) : Bool := decide (b ≤ a)

/-- Number of positive anchors of one image:
`pos_inds = ((labels >= 0) & (labels < self.background_label)).nonzero()`.
Labels are naturals, so `labels >= 0` is automatic. -/
def ohemNumPos (labels : List ℕ) (bg : ℕ) : ℕ :=
  (labels.filter (fun l => decide (l < bg))).length

/-- The per-anchor classification losses gathered at the negative anchors:
`loss_cls_all[neg_inds]` with `neg_inds = (labels == self.background_label).nonzero()`.
The gather keeps index order, which is filter order on the zipped lists. -/
def ohemNegLosses (labels : List ℕ) (lossAll : List ℚ) (bg : ℕ) : List ℚ :=
  ((labels.zip lossAll).filter (fun p => decide (p.1 = bg))).map (fun p => p.2)

/-- The negative budget (lines 491-497): all negatives when there is no
positive, otherwise `neg_pos_ratio * num_pos`, cut down to the number of
available negatives. -/
def ohemNumNegSamples (r numPos numNeg : ℕ) : ℕ :=
  if numPos = 0 then numNeg
  else if r * numPos > numNeg then numNeg else r * numPos

/-- Model of `loss_cls_all[neg_inds].topk(num_neg_samples)`: the `k` largest
values, obtained by sorting in descending order and taking a prefix. -/
def ohemTopk (xs : List ℚ) (k : ℕ) : List ℚ :=
  (xs.mergeSort descBle).take k

/-! ### Batch-wide normalizer (`YOLACTHead.get_targets`, lines 339-340) -/

/-- Model of `num_total_pos = sum([max(inds.numel(), 1) for inds in pos_inds_list])`,
the value passed to `loss_single_OHEM` as `num_total_samples`. -/
def numTotalPos (posIndsList : List (List ℕ)) : ℕ :=
  (posIndsList.map (fun inds => max inds.length 1)).sum

/-! ### Coordinate sanitation and cropping
(`YOLACTProtonet.sanitize_coordinates` lines 1084-1110,
`YOLACTProtonet.crop` lines 1052-1082) -/

/-- Model of `sanitize_coordinates(x1, x2, img_size, padding, cast=False)`
as called by `crop`: scale relative coordinates to absolute, sort the pair
(`x1 = min(x1, x2); x2 = max(x1, x2)`, where the second line already sees the
updated `x1`), then clamp `x1 - padding` below at 0 and `x2 + padding` above
at `img_size`. `torch.clamp(t, min=0)` is `max t 0` and
`torch.clamp(t, max=s)` is `min t s`. -/
def sanitizeCoordinates (x1 x2 imgSize pad : ℚ) : ℚ × ℚ :=
  let a1 := x1 * imgSize
  let a2 := x2 * imgSize
  let m1 := min a1 a2
  let m2 := max m1 a2
  (max (m1 - pad) 0, min (m2 + pad) imgSize)

/-- An axis-aligned box in relative point form, as handed to `crop`. -/
structure Box where
  x1 : ℚ
  y1 : ℚ
  x2 : ℚ
  y2 : ℚ
deriving DecidableEq, Repr

/-- Whether the crop window of box `b` keeps the cell in row `r`, column `c`
(`masks_left * masks_right * masks_up * masks_down` at that cell): the column
index is compared against the sanitized x-pair (sanitized with the mask width)
and the row index against the sanitized y-pair (sanitized with the mask
height). -/
def cropKeep (wid hgt : ℕ) (pad : ℚ) (b : Box) (r c : ℕ) : Bool :=
  let xs := sanitizeCoordinates b.x1 b.x2 wid pad
  let ys := sanitizeCoordinates b.y1 b.y2 hgt pad
  decide (xs.1 ≤ (c : ℚ)) && decide ((c : ℚ) < xs.2) &&
  decide (ys.1 ≤ (r : ℚ)) && decide ((r : ℚ) < ys.2)

/-- Model of `crop(masks, boxes, padding=1)`: `masks` has shape `[H, W, N]`
(rows, columns, instances); every cell is multiplied by the 0/1 crop mask of
its instance's box. The comparison grids `rows` and `cols` only range over the
mask's own indices, so the result reads exactly the input cells. -/
def crop (masks : List (List (List ℚ))) (boxes : List Box) (pad : ℚ) :
    List (List (List ℚ)) :=
  let hgt := masks.length
  let wid := (masks.headD []).length
  masks.enum.map (fun rp =>
    rp.2.enum.map (fun cp =>
      cp.2.enum.map (fun ip =>
        if cropKeep wid hgt pad (boxes.getD ip.1 ⟨0, 0, 0, 0⟩) rp.1 cp.1
        then ip.2 else 0)))

/-- The cell of a `[H, W, N]` tensor at row `r`, column `c`, instance `i`
(0 outside the stored extent). -/
def cellAt (t : List (List (List ℚ))) (r c i : ℕ) : ℚ :=
  ((t.getD r []).getD c []).getD i 0

/-! ### Auxiliary segmentation targets (`YOLACTSegmHead.get_targets`, lines 747-773)
Class maps are flattened to length-`cells` lists of spatial values; the
bilinear `F.interpolate` producing the downsampled masks is an external torch
primitive, so the definitions take the downsampled (pre-threshold) masks as
input and apply the `gt(0.5)` threshold themselves. -/

/-- Model of `downsampled_masks.gt(0.5).float()` on one flattened mask. -/
def segmThreshold (m : List ℚ) : List ℚ :=
  m.map (fun v => if (1 : ℚ) / 2 < v then 1 else 0)

/-- Elementwise `torch.max` of two equal-length flattened maps. -/
def elemMax (a b : List ℚ) : List ℚ := List.zipWith max a b

/-- The channel written for a ground-truth label: the source indexes
`segm_targets[gt_labels[obj_idx] - 1]`, so label `l ≥ 1` lands in channel
`l - 1` and label `0` lands in Python index `-1`, the last channel. -/
def segmChanIdx (numClasses l : ℕ) : ℕ :=
  if l = 0 then numClasses - 1 else l - 1

/-- Model of `YOLACTSegmHead.get_targets`: `None` for an image with no
instance; otherwise start from an all-zero `(num_classes, cells)` target and,
per instance in order, replace the channel `segmChanIdx` of its label by the
elementwise max with the instance's thresholded downsampled mask. -/
def segmGetTargets (numClasses cells : ℕ) (gtMasks : List (List ℚ))
    (gtLabels : List ℕ) : Option (List (List ℚ)) :=
  if gtMasks.length = 0 then none
  else some ((((gtMasks.map segmThreshold).zip gtLabels)).foldl
    (fun acc p =>
      acc.set (segmChanIdx numClasses p.2)
        (elemMax (acc.getD (segmChanIdx numClasses p.2) []) p.1))
    (List.replicate numClasses (List.replicate cells 0)))

/-- Target construction following the words of the spec, for comparison with
`segmGetTargets`: the channel for class `c` is the elementwise maximum of the
thresholded downsampled masks of all instances labelled `c`. -/
def segmGetTargetsSpec (numClasses cells : ℕ) (gtMasks : List (List ℚ))
    (gtLabels : List ℕ) : Option (List (List ℚ)) :=
  if gtMasks.length = 0 then none
  else some ((List.range numClasses).map (fun c =>
    (((gtMasks.map segmThreshold).zip gtLabels)).foldl
      (fun a p => if p.2 = c then elemMax a p.1 else a)
      (List.replicate cells 0)))

/-- Channel-by-channel description of what the source computes: like
`segmGetTargetsSpec`, but channel `c` collects the instances whose label is
sent to `c` by `segmChanIdx` (label `c + 1`, and label `0` for the last
channel). -/
def segmGetTargetsShifted (numClasses cells : ℕ) (gtMasks : List (List ℚ))
    (gtLabels : List ℕ) : Option (List (List ℚ)) :=
  if gtMasks.length = 0 then none
  else some ((List.range numClasses).map (fun c =>
    (((gtMasks.map segmThreshold).zip gtLabels)).foldl
      (fun a p => if segmChanIdx numClasses p.2 = c then elemMax a p.1 else a)
      (List.replicate cells 0)))

/-! ### Per-image target assignment (`YOLACTHead._get_targets_single`,
lines 145-252, and the merge in `YOLACTHead.get_targets`, lines 300-356)

The validity mask produced by `anchor_inside_flags` (imported from
`mmdet.core`, outside this head) is taken as input, as are the index sets
produced by the pluggable assigner/sampler over the valid-anchor subset;
`_get_targets_single` is embedded from the flags on. Only the label and
label-weight fields are modelled; the bbox target/weight fields are built by
the same scatter/re-expansion pattern and are not needed by any claim. -/

/-- Per-image inputs of `_get_targets_single` downstream of the assigner:
the validity flag of every anchor, the sampler's positive and negative index
sets (indices into the valid subset), the ground-truth index assigned to each
positive, and the ground-truth labels. -/
structure TargetsSingleInput where
  insideFlags : List Bool
  posInds : List ℕ
  negInds : List ℕ
  posAssignedGtInds : List ℕ
  gtLabels : List ℕ
deriving DecidableEq, Repr

/-- Label of valid-subset anchor `i` after the scatter
`labels[pos_inds] = gt_labels[pos_assigned_gt_inds]` into the
background-initialised array (index sets hold distinct indices, so the
scatter is pointwise). -/
def validLabelAt (inp : TargetsSingleInput) (bg : ℕ) (i : ℕ) : ℕ :=
  match (inp.posInds.zip inp.posAssignedGtInds).find? (fun q => q.1 == i) with
  | some q => inp.gtLabels.getD q.2 0
  | none => bg

/-- Label weight of valid-subset anchor `i`: zero-initialised, positives get
`1.0` (or the configured `pos_weight` when positive), then negatives get
`1.0`; the negative write happens last in the source. -/
def validLabelWeightAt (inp : TargetsSingleInput) (posWeight : ℚ) (i : ℕ) : ℚ :=
  if i ∈ inp.negInds then 1
  else if i ∈ inp.posInds then (if posWeight ≤ 0 then 1 else posWeight) else 0

/-- Model of `mmdet.core.unmap(data, count, inds, fill)` as described by the
spec step (5): re-expand `vals` from the valid subset back to one slot per
flag, filling non-valid slots with `fill`. -/
def unmapList : List Bool → List α → α → List α
  | [], _, _ => []
  | true :: fs, v :: vs, fill => v :: unmapList fs vs fill
  | true :: fs, [], fill => fill :: unmapList fs [] fill
  | false :: fs, vs, fill => fill :: unmapList fs vs fill

/-- Number of valid anchors before position `j` (the valid-subset index that
full-anchor position `j` re-expands from). -/
def validRank (flags : List Bool) (j : ℕ) : ℕ :=
  ((flags.take j).filter id).length

/-- The label fields of one image's `_get_targets_single` result: `none` is
the no-valid-anchor sentinel (`return (None,) * 6`, line 190). -/
structure TargetsSingleResult where
  labels : List ℕ
  labelWeights : List ℚ
  posInds : List ℕ
  negInds : List ℕ
deriving DecidableEq, Repr

/-- Model of `_get_targets_single`: sentinel if no anchor is valid, else the
scattered per-valid-anchor labels/weights, re-expanded to the full anchor
count (background label, zero weight in the filled slots) only when
`unmap_outputs` is set. -/
def getTargetsSingle (inp : TargetsSingleInput) (bg : ℕ) (posWeight : ℚ)
    (unmapOutputs : Bool) : Option TargetsSingleResult :=
  if !inp.insideFlags.any id then none
  else
    let numValid := (inp.insideFlags.filter id).length
    let labelsValid := (List.range numValid).map (validLabelAt inp bg)
    let weightsValid := (List.range numValid).map (validLabelWeightAt inp posWeight)
    some
      { labels := if unmapOutputs then unmapList inp.insideFlags labelsValid bg else labelsValid
        labelWeights :=
          if unmapOutputs then unmapList inp.insideFlags weightsValid 0 else weightsValid
        posInds := inp.posInds
        negInds := inp.negInds }

/-- Line 406 of `YOLACTHead.loss`: `unmap_outputs=not self.use_ohem`. -/
def lossUnmapOutputs (useOhem : Bool) : Bool := !useOhem

/-- Line 57: the head's constructor default is `use_ohem=True`. -/
def defaultUseOhem : Bool := true

/-- Python length of one image's `_get_targets_single` return tuple: the
sentinel is `(None,) * 6` (line 190), the regular path returns 7 values
(lines 251-252). -/
def targetsTupleLen {α : Type} (r : Option α) : ℕ :=
  match r with
  | none => 6
  | some _ => 7

/-- Model of `get_targets` (lines 320-337): run `_get_targets_single` per
image, merge the per-image tuples field-wise and unpack 7 fields, then check
the `None` sentinel. `multi_apply` (in `mmdet.core`, outside this head) is
modelled from the spec as the field-wise regrouping of the per-image result
tuples; it is Python `zip(*results)`, which truncates to the shortest tuple,
so unpacking 7 fields raises when any tuple is shorter. On success it also
yields `num_total_pos` (line 339). -/
def getTargets (imgs : List TargetsSingleInput) (bg : ℕ) (posWeight : ℚ)
    (unmapOutputs : Bool) : Except String (Option (List TargetsSingleResult × ℕ)) :=
  let results := imgs.map (fun inp => getTargetsSingle inp bg posWeight unmapOutputs)
  let fieldCount := (results.map targetsTupleLen).foldr min 7
  if fieldCount < 7 then Except.error "not enough values to unpack"
  else if results.any (fun r => r.isNone) then Except.ok none
  else
    let ok := results.filterMap id
    Except.ok (some (ok, numTotalPos (ok.map (fun r => r.posInds))))

/-! ### Prototype head forward (`YOLACTProtonet.forward`, lines 858-923) -/

/-- Lines 915-918: divide the x-coordinates by the image width and the
y-coordinates by the image height, in place. -/
def normalizeBox (w h : ℚ) (b : Box) : Box :=
  ⟨b.x1 / w, b.y1 / h, b.x2 / w, b.y2 / h⟩

/-- The box handling of one image in `YOLACTProtonet.forward`. Returns
(boxes used for cropping, value of the caller's box tensor after the call).
In training the source gathers the positive ground-truth boxes and `.clone()`s
them before the in-place normalization (line 906), so the caller's tensor is
untouched; in testing `bboxes_for_cropping = cur_bboxes` aliases the caller's
tensor (line 901) and the normalization writes through the alias. -/
def protonetForwardBoxes (training : Bool) (curBboxes : List Box)
    (posAssignedGtInds : List ℕ) (w h : ℚ) : List Box × List Box :=
  if training then
    (((posAssignedGtInds.map (fun i => curBboxes.getD i ⟨0, 0, 0, 0⟩)).map (normalizeBox w h)),
      curBboxes)
  else
    (curBboxes.map (normalizeBox w h), curBboxes.map (normalizeBox w h))

/-! ### Mask loss bookkeeping (`YOLACTProtonet.loss`, lines 926-995) -/

/-- Per-image data of the mask loss: the ground-truth index of every positive
instance, and the draw of `torch.randperm(num_pos)` for this call. -/
structure MaskImgData where
  posAssignedGtInds : List ℕ
  perm : List ℕ
deriving DecidableEq, Repr

/-- Lines 957-962: the number of positives trained for one image —
`num_pos` unless it exceeds `max_masks_to_train`, in which case the cap. -/
def maskNumPosTrained (cap : ℕ) (d : MaskImgData) : ℕ :=
  if d.posAssignedGtInds.length > cap then cap else d.posAssignedGtInds.length

/-- Lines 957-961: the ground-truth indices of the instances actually
trained — all positives, or the first `cap` slots of the random permutation
when over the cap. -/
def maskSelectedGtInds (cap : ℕ) (d : MaskImgData) : List ℕ :=
  if d.posAssignedGtInds.length > cap then
    (d.perm.take cap).map (fun j => d.posAssignedGtInds.getD j 0)
  else d.posAssignedGtInds

/-- Line 963: `total_pos` accumulated over the batch. -/
def maskTotalPos (cap : ℕ) (imgs : List MaskImgData) : ℕ :=
  (imgs.map (maskNumPosTrained cap)).sum

/-- Lines 991-992: `if total_pos == 0: total_pos += 1`. -/
def maskDivisor (cap : ℕ) (imgs : List MaskImgData) : ℕ :=
  if maskTotalPos cap imgs = 0 then 1 else maskTotalPos cap imgs

/-- Line 993: every per-image mask loss is divided by the batch-wide
`total_pos`. `imgLoss i sel` abstracts the pre-division loss of image `i`
computed from its selected instances (the BCE/reweighting of lines 967-989,
orthogonal to the bookkeeping claims). -/
def protonetMaskLosses (cap : ℕ) (imgs : List MaskImgData)
    (imgLoss : ℕ → List ℕ → ℚ) : List ℚ :=
  imgs.enum.map
    (fun p => imgLoss p.1 (maskSelectedGtInds cap p.2) / (maskDivisor cap imgs : ℚ))

/-! ### Finiteness assertions in `YOLACTHead.loss` (lines 409-452) -/

/-- A floating-point prediction value: finite (modelled as a rational), NaN,
or an infinity. `torch.isfinite` is true exactly on the finite case. -/
inductive FVal where
  | fin (q : ℚ)
  | nan
  | posInf
  | negInf
deriving DecidableEq, Repr

/-- Model of `torch.isfinite` on one value. -/
def FVal.isFinite : FVal → Bool
  | .fin _ => true
  | _ => false

/-- Outcome of `YOLACTHead.loss`: the `None` early return when target
assignment found no valid anchors (line 410), an `AssertionError` (lines
438-441), or the computed loss dictionary. -/
inductive LossOutcome (α : Type) where
  | noValidAnchors
  | assertFail (msg : String)
  | computed (v : α)
deriving DecidableEq, Repr

/-- Control flow of `YOLACTHead.loss` around the finiteness assertions:
return `None` when `get_targets` returned the sentinel (lines 409-410); in
the OHEM branch check `torch.isfinite` on all classification scores and then
on all box predictions (lines 437-441) before computing the per-image losses
(lines 443-452, abstracted as `computeLosses`); the non-OHEM branch (lines
453-475) computes the losses with no finiteness check. -/
def yolactHeadLoss {τ α : Type} (useOhem : Bool) (clsScores bboxPreds : List FVal)
    (clsRegTargets : Option τ) (computeLosses : τ → α) : LossOutcome α :=
  match clsRegTargets with
  | none => .noValidAnchors
  | some t =>
    if useOhem then
      if !(clsScores.all FVal.isFinite) then
        .assertFail "classification scores become infinite or NaN!"
      else if !(bboxPreds.all FVal.isFinite) then
        .assertFail "bbox predications become infinite or NaN!"
      else .computed (computeLosses t)
    else .computed (computeLosses t)

/-! ### Mask coefficients (`YOLACTHead.forward_single`, lines 118-136) -/

/-- The coefficient branch of `forward_single`:
`coeff_pred = self.conv_coeff(x).tanh()`. The convolution output is an
arbitrary list of real pre-activations; the branch applies `tanh`
elementwise. -/
noncomputable def forwardSingleCoeff (preActivations : List ℝ) : List ℝ :=
  preActivations.map Real.tanh

end Yolact

namespace Yolact

/-! ### Theorems -/

/-- C1: in `loss_single_OHEM`, the negative budget is the whole negative pool
when there is no positive anchor and `min(neg_pos_ratio * P, negative_count)`
otherwise; the negatives contributing to the loss are a size-`budget`
sub-multiset of the negative losses dominating every non-selected negative
loss, i.e. exactly the highest-loss negatives. -/
theorem ohem_neg_budget_topk (labels : List ℕ) (lossAll : List ℚ) (bg r : ℕ) :
    (ohemNumPos labels bg = 0 →
      ohemNumNegSamples r (ohemNumPos labels bg) (ohemNegLosses labels lossAll bg).length
        = (ohemNegLosses labels lossAll bg).length) ∧
    (ohemNumPos labels bg ≠ 0 →
      ohemNumNegSamples r (ohemNumPos labels bg) (ohemNegLosses labels lossAll bg).length
        = min (r * ohemNumPos labels bg) (ohemNegLosses labels lossAll bg).length) ∧
    (ohemTopk (ohemNegLosses labels lossAll bg)
        (ohemNumNegSamples r (ohemNumPos labels bg) (ohemNegLosses labels lossAll bg).length)).length
      = ohemNumNegSamples r (ohemNumPos labels bg) (ohemNegLosses labels lossAll bg).length ∧
    (↑(ohemTopk (ohemNegLosses labels lossAll bg)
        (ohemNumNegSamples r (ohemNumPos labels bg) (ohemNegLosses labels lossAll bg).length)) : Multiset ℚ)
      ≤ ↑(ohemNegLosses labels lossAll bg) ∧
    ∀ a ∈ ohemTopk (ohemNegLosses labels lossAll bg)
        (ohemNumNegSamples r (ohemNumPos labels bg) (ohemNegLosses labels lossAll bg).length),
      ∀ b ∈ (↑(ohemNegLosses labels lossAll bg) : Multiset ℚ)
          - ↑(ohemTopk (ohemNegLosses labels lossAll bg)
              (ohemNumNegSamples r (ohemNumPos labels bg) (ohemNegLosses labels lossAll bg).length)),
        b ≤ a := by
  set P := ohemNumPos labels bg with hP
  set neg := ohemNegLosses labels lossAll bg with hneg
  set k := ohemNumNegSamples r P neg.length with hk
  have hk_le : k ≤ neg.length := by
    rw [hk, ohemNumNegSamples]
    split
    · exact le_rfl
    · split <;> omega
  have hsorted : List.Pairwise (fun a b => descBle a b = true) (neg.mergeSort descBle) := by
    apply List.sorted_mergeSort
    · intro a b c hab hbc
      simp only [descBle, decide_eq_true_eq] at *
      exact le_trans hbc hab
    · intro a b
      simp only [descBle]
      rcases le_total a b with h | h
      · simp [h]
      · simp [h]
  have hperm : List.Perm (neg.mergeSort descBle) neg := List.mergeSort_perm neg descBle
  have hsplit : neg.mergeSort descBle
      = (neg.mergeSort descBle).take k ++ (neg.mergeSort descBle).drop k :=
    (List.take_append_drop k _).symm
  have hcoe : (↑neg : Multiset ℚ)
      = ↑((neg.mergeSort descBle).take k) + ↑((neg.mergeSort descBle).drop k) := by
    have h1 : (↑(neg.mergeSort descBle) : Multiset ℚ) = ↑neg :=
      Multiset.coe_eq_coe.mpr hperm
    calc (↑neg : Multiset ℚ) = ↑(neg.mergeSort descBle) := h1.symm
      _ = ↑((neg.mergeSort descBle).take k ++ (neg.mergeSort descBle).drop k) := by
          rw [← hsplit]
      _ = ↑((neg.mergeSort descBle).take k) + ↑((neg.mergeSort descBle).drop k) := by
          rw [← Multiset.coe_add]
  have hdom : ∀ a ∈ (neg.mergeSort descBle).take k,
      ∀ b ∈ (neg.mergeSort descBle).drop k, descBle a b = true := by
    have := hsorted
    rw [hsplit] at this
    exact (List.pairwise_append.mp this).2.2
  refine ⟨?_, ?_, ?_, ?_, ?_⟩
  · intro h0
    rw [hk, ohemNumNegSamples, if_pos h0]
  · intro h0
    rw [hk, ohemNumNegSamples, if_neg h0]
    split <;> omega
  · show ((neg.mergeSort descBle).take k).length = k
    rw [List.length_take, List.length_mergeSort]
    omega
  · show (↑((neg.mergeSort descBle).take k) : Multiset ℚ) ≤ ↑neg
    rw [hcoe]
    exact Multiset.le_add_right _ _
  · intro a ha b hb
    simp only [ohemTopk] at ha hb
    have hb' : b ∈ ((neg.mergeSort descBle).drop k : List ℚ) := by
      have : (↑neg : Multiset ℚ) - ↑((neg.mergeSort descBle).take k)
          = ↑((neg.mergeSort descBle).drop k) := by
        rw [hcoe, add_tsub_cancel_left]
      rw [this] at hb
      exact hb
    have := hdom a ha b hb'
    simpa [descBle] using this

/-- Witness for the OHEM theorem: a synthetic image with one positive
(label 0), three negatives (background label 5) and losses with a known
ranking; the budget is `min(3 * 1, 3) = 3`. -/
theorem ohem_neg_budget_topk_witness :
    ohemNumPos [0, 5, 5, 5] 5 ≠ 0 ∧
    ohemNumNegSamples 3 (ohemNumPos [0, 5, 5, 5] 5)
        (ohemNegLosses [0, 5, 5, 5] [1, 4, 2, 3] 5).length
      = min (3 * ohemNumPos [0, 5, 5, 5] 5)
        (ohemNegLosses [0, 5, 5, 5] [1, 4, 2, 3] 5).length := by
  refine ⟨by decide, ?_⟩
  exact (ohem_neg_budget_topk [0, 5, 5, 5] [1, 4, 2, 3] 5 3).2.1 (by decide)

/-- C4 counterexample: a batch whose single image has no positive anchor.
The code's normalizer counts it as 1, while the batch-wide positive count
is 0, so the normalizer is not the batch-wide positive count. -/
theorem num_total_pos_zero_pos_counterexample :
    numTotalPos [([] : List ℕ)] ≠ (([([] : List ℕ)]).map List.length).sum := by
  decide

/-- C4 amended: the normalizer `num_total_pos` of `get_targets` (line 339)
sums `max(P_i, 1)` over the images; it equals the batch-wide positive-anchor
count exactly on batches in which every image has at least one positive
anchor. -/
theorem num_total_pos_eq_batch_count (posIndsList : List (List ℕ))
    (h : ∀ inds ∈ posIndsList, inds ≠ []) :
    numTotalPos posIndsList = (posIndsList.map List.length).sum := by
  induction posIndsList with
  | nil => rfl
  | cons a l ih =>
    have ha : a ≠ [] := h a (by simp)
    have hlen : 1 ≤ a.length := List.length_pos.mpr ha
    have hmax : max a.length 1 = a.length := by omega
    simp only [numTotalPos, List.map_cons, List.sum_cons] at *
    rw [hmax, ih (fun i hi => h i (by simp [hi]))]

/-- Witness for the amended C4 theorem: two images with 1 and 2 positive
anchors give normalizer 3. -/
theorem num_total_pos_eq_batch_count_witness :
    numTotalPos [[0], [1, 2]] = (([[0], [1, 2]] : List (List ℕ)).map List.length).sum := by
  exact num_total_pos_eq_batch_count [[0], [1, 2]] (by decide)

/-- C2 counterexample: the box with relative coordinates x1 = x2 = -1/2 lies
wholly outside a size-10 image. After sanitation with padding 1 the low
x-coordinate is 0 and the high x-coordinate is -4: the low coordinate exceeds
the high one and the high coordinate lies outside `[0, 10]`. -/
theorem sanitize_coordinates_counterexample :
    sanitizeCoordinates (-(1 / 2)) (-(1 / 2)) 10 1 = (0, -4) ∧
    ¬((sanitizeCoordinates (-(1 / 2)) (-(1 / 2)) 10 1).1
        ≤ (sanitizeCoordinates (-(1 / 2)) (-(1 / 2)) 10 1).2 ∧
      0 ≤ (sanitizeCoordinates (-(1 / 2)) (-(1 / 2)) 10 1).2) := by
  constructor
  · show ((max (min (-(1 / 2) * 10) (-(1 / 2) * 10) - 1) 0 : ℚ), _) = _
    norm_num [sanitizeCoordinates]
  · norm_num [sanitizeCoordinates]

/-- C2 amended: after sanitation the low coordinate is always ≥ 0 and the
high coordinate always ≤ the dimension; whenever the scaled box meets the
padded image range (in particular for every box at least partly inside the
image) the low coordinate is moreover ≤ the high one and both lie in
`[0, dimension]`. Independently of the box, every cell of the cropped tensor
is the corresponding input cell or zero: the crop compares only the tensor's
own row/column indices against the sanitized box and never addresses a cell
outside `[0, H) × [0, W)`. -/
theorem sanitize_coordinates_crop_amended (x1 x2 size pad : ℚ)
    (hp : 0 ≤ pad) (hs : 0 ≤ size) :
    (0 ≤ (sanitizeCoordinates x1 x2 size pad).1 ∧
      (sanitizeCoordinates x1 x2 size pad).2 ≤ size) ∧
    (min (x1 * size) (x2 * size) ≤ size + pad → -pad ≤ x2 * size →
      (sanitizeCoordinates x1 x2 size pad).1 ≤ (sanitizeCoordinates x1 x2 size pad).2 ∧
      (sanitizeCoordinates x1 x2 size pad).1 ≤ size ∧
      0 ≤ (sanitizeCoordinates x1 x2 size pad).2) ∧
    (∀ masks boxes r c i, cellAt (crop masks boxes pad) r c i = cellAt masks r c i ∨
      cellAt (crop masks boxes pad) r c i = 0) := by
  refine ⟨⟨le_max_right _ _, min_le_right _ _⟩, ?_, ?_⟩
  · intro h1 h2
    simp only [sanitizeCoordinates]
    have hm1 : min (x1 * size) (x2 * size) ≤ max (min (x1 * size) (x2 * size)) (x2 * size) :=
      le_max_left _ _
    have hm2 : -pad ≤ max (min (x1 * size) (x2 * size)) (x2 * size) :=
      le_trans h2 (le_max_right _ _)
    refine ⟨?_, ?_, ?_⟩
    · apply max_le
      · apply le_min
        · linarith
        · linarith
      · apply le_min
        · linarith
        · exact hs
    · apply max_le
      · linarith
      · exact hs
    · apply le_min
      · linarith
      · exact hs
  · intro masks boxes r c i
    rcases hrow : masks[r]? with _ | row
    · right
      simp [cellAt, crop, List.enum, List.getD_eq_getElem?_getD, List.getElem?_enumFrom, hrow]
    · rcases hcol : row[c]? with _ | cell
      · right
        simp [cellAt, crop, List.enum, List.getD_eq_getElem?_getD, List.getElem?_enumFrom,
          hrow, hcol]
      · rcases hins : cell[i]? with _ | v
        · right
          simp [cellAt, crop, List.enum, List.getD_eq_getElem?_getD, List.getElem?_enumFrom,
            hrow, hcol, hins]
        · have hcrop : cellAt (crop masks boxes pad) r c i
              = (if cropKeep (masks.headD []).length masks.length pad
                  (boxes.getD i ⟨0, 0, 0, 0⟩) r c then v else 0) := by
            simp [cellAt, crop, List.enum, List.getD_eq_getElem?_getD, List.getElem?_enumFrom,
              hrow, hcol, hins, Function.comp]
          have hm : cellAt masks r c i = v := by
            simp [cellAt, List.getD_eq_getElem?_getD, hrow, hcol, hins]
          rw [hcrop, hm]
          exact ite_eq_or_eq _ _ _

/-- Witness for the amended C2 theorem: the box (1/4, 3/4) in a size-10 map
with padding 1 meets the padded range, and its sanitized coordinates are
ordered. -/
theorem sanitize_coordinates_crop_amended_witness :
    (sanitizeCoordinates (1 / 4) (3 / 4) 10 1).1
      ≤ (sanitizeCoordinates (1 / 4) (3 / 4) 10 1).2 :=
  ((sanitize_coordinates_crop_amended (1 / 4) (3 / 4) 10 1 (by norm_num)
    (by norm_num)).2.1 (by norm_num) (by norm_num)).1

/-- Scatter-style fold (repeated `acc.set c (update of acc[c])`) computed
channel by channel: channel `c` of the result folds only the items sent to
channel `c`. -/
theorem foldl_set_channels {P : Type} (ps : List P) (k : P → ℕ)
    (u : List ℚ → P → List ℚ) (n : ℕ) :
    ∀ acc : List (List ℚ), acc.length = n →
      ps.foldl (fun a p => a.set (k p) (u (a.getD (k p) []) p)) acc
        = (List.range n).map
            (fun c => ps.foldl (fun a p => if k p = c then u a p else a) (acc.getD c [])) := by
  induction ps with
  | nil =>
    intro acc hlen
    simp only [List.foldl_nil]
    refine List.ext_getElem (by simp [hlen]) ?_
    intro i h1 h2
    have hi : i < n := by simpa [hlen] using h1
    simp [List.getD_eq_getElem?_getD, List.getElem?_eq_getElem h1]
  | cons p ps ih =>
    intro acc hlen
    simp only [List.foldl_cons]
    rw [ih _ (by simp [hlen])]
    apply List.map_congr_left
    intro c hc
    have hcn : c < n := List.mem_range.mp hc
    congr 1
    by_cases hj : k p = c
    · rw [hj]
      have hclen : c < acc.length := by omega
      simp [List.getD_eq_getElem?_getD, List.getElem?_set_self hclen]
    · simp [List.getD_eq_getElem?_getD, List.getElem?_set_ne hj, hj]

/-- C3 counterexample: one instance with label 1 and an everywhere-on mask,
two classes. The source writes the mask into channel `1 - 1 = 0`, while the
claim (followed verbatim by `segmGetTargetsSpec`) puts it into channel 1. -/
theorem segm_targets_counterexample :
    segmGetTargets 2 1 [[1]] [1] = some [[1], [0]] ∧
    segmGetTargetsSpec 2 1 [[1]] [1] = some [[0], [1]] ∧
    segmGetTargets 2 1 [[1]] [1] ≠ segmGetTargetsSpec 2 1 [[1]] [1] := by
  have h1 : segmGetTargets 2 1 [[1]] [1] = some [[1], [0]] := by
    simp [segmGetTargets, segmThreshold, elemMax, segmChanIdx]
    norm_num
  have h2 : segmGetTargetsSpec 2 1 [[1]] [1] = some [[0], [1]] := by
    simp [segmGetTargetsSpec, segmThreshold, elemMax]
    norm_num
    simp [List.range_succ]
  refine ⟨h1, h2, ?_⟩
  rw [h1, h2]
  simp

/-- C3 amended: the target places each instance in channel `label - 1`, with
label 0 wrapping to the last channel (Python index -1); channel `c` is the
elementwise max of the thresholded downsampled masks of the instances whose
label is sent to `c` by that shift, and all-zero when no instance is. -/
theorem segm_targets_channel_shifted (numClasses cells : ℕ)
    (gtMasks : List (List ℚ)) (gtLabels : List ℕ) (_hnc : 0 < numClasses)
    (_hlab : ∀ l ∈ gtLabels, l < numClasses) :
    segmGetTargets numClasses cells gtMasks gtLabels
      = segmGetTargetsShifted numClasses cells gtMasks gtLabels := by
  unfold segmGetTargets segmGetTargetsShifted
  split
  · rfl
  · congr 1
    refine (foldl_set_channels ((gtMasks.map segmThreshold).zip gtLabels)
        (fun p => segmChanIdx numClasses p.2) (fun a p => elemMax a p.1) numClasses
        (List.replicate numClasses (List.replicate cells 0)) (by simp)).trans ?_
    apply List.map_congr_left
    intro c hc
    have hcn : c < numClasses := List.mem_range.mp hc
    congr 1
    simp [List.getD_eq_getElem?_getD, List.getElem?_replicate, hcn]

/-- Witness for the amended C3 theorem at the counterexample input. -/
theorem segm_targets_channel_shifted_witness :
    segmGetTargets 2 1 [[1]] [1] = segmGetTargetsShifted 2 1 [[1]] [1] :=
  segm_targets_channel_shifted 2 1 [[1]] [1] (by decide) (by decide)

/-- Re-expansion preserves one slot per anchor flag. -/
theorem unmapList_length (fs : List Bool) (vs : List α) (fill : α) :
    (unmapList fs vs fill).length = fs.length := by
  induction fs generalizing vs with
  | nil => rfl
  | cons b fs ih =>
    cases b
    · simp [unmapList, ih]
    · cases vs
      · simp [unmapList, ih]
      · simp [unmapList, ih]

/-- A slot whose flag is false receives the fill value. -/
theorem unmapList_getElem?_false (fs : List Bool) (vs : List α) (fill : α)
    (j : ℕ) (h : fs[j]? = some false) :
    (unmapList fs vs fill)[j]? = some fill := by
  induction fs generalizing vs j with
  | nil => simp at h
  | cons b fs ih =>
    cases j with
    | zero =>
      simp at h
      subst h
      simp [unmapList]
    | succ j =>
      simp only [List.getElem?_cons_succ] at h
      cases b
      · simpa [unmapList] using ih vs j h
      · cases vs
        · simpa [unmapList] using ih [] j h
        · simpa [unmapList] using ih _ j h

/-- A slot whose flag is true receives the valid-subset entry at its rank
(the fill value when the data list is exhausted). -/
theorem unmapList_getElem?_true (fs : List Bool) (vs : List α) (fill : α)
    (j : ℕ) (h : fs[j]? = some true) :
    (unmapList fs vs fill)[j]? = some (vs.getD (validRank fs j) fill) := by
  induction fs generalizing vs j with
  | nil => simp at h
  | cons b fs ih =>
    cases j with
    | zero =>
      simp at h
      subst h
      cases vs
      · simp [unmapList, validRank]
      · simp [unmapList, validRank]
    | succ j =>
      simp only [List.getElem?_cons_succ] at h
      cases b
      · simpa [unmapList, validRank, List.take_succ_cons, List.filter_cons] using ih vs j h
      · cases vs with
        | nil =>
          simpa [unmapList, validRank, List.take_succ_cons, List.filter_cons]
            using ih [] j h
        | cons v vs =>
          simpa [unmapList, validRank, List.take_succ_cons, List.filter_cons]
            using ih vs j h

/-- The rank of a valid anchor is below the valid-anchor count. -/
theorem validRank_lt_numValid (fs : List Bool) (j : ℕ) (h : fs[j]? = some true) :
    validRank fs j < (fs.filter id).length := by
  induction fs generalizing j with
  | nil => simp at h
  | cons b fs ih =>
    cases j with
    | zero =>
      simp at h
      subst h
      simp [validRank]
    | succ j =>
      simp only [List.getElem?_cons_succ] at h
      cases b
      · simpa [validRank, List.take_succ_cons, List.filter_cons] using ih j h
      · have := ih j h
        simp only [validRank, List.take_succ_cons, List.filter_cons] at *
        simpa using Nat.succ_lt_succ this

/-- C5 counterexample: the head defaults to OHEM (line 57), the OHEM loss
path calls `get_targets` with `unmap_outputs = not use_ohem = False`
(line 406), and then an image with anchors [invalid, valid] and one sampled
negative returns 1-slot targets: they are not re-expanded to the 2-anchor
count. -/
theorem targets_not_reexpanded_counterexample :
    defaultUseOhem = true ∧
    lossUnmapOutputs defaultUseOhem = false ∧
    (getTargetsSingle ⟨[false, true], [], [0], [], []⟩ 80 1
        (lossUnmapOutputs defaultUseOhem)).map (fun r => r.labels.length)
      ≠ some ([false, true] : List Bool).length := by
  refine ⟨rfl, rfl, ?_⟩
  simp [getTargetsSingle, lossUnmapOutputs, defaultUseOhem]

/-- C5 amended: when `_get_targets_single` is called with re-expansion
enabled (`unmap_outputs=True`, as the non-OHEM loss path does), the returned
labels and label weights have one slot per anchor; every anchor outside the
valid region is filled with the background label and zero label weight, and
every valid anchor sampled as negative has label weight 1 — so a sampled
background anchor has zero weight only if it was outside the valid region.
In the OHEM path (`unmap_outputs=False`) the targets stay on the
valid-anchor subset instead. -/
theorem targets_reexpanded_amended (inp : TargetsSingleInput) (bg : ℕ)
    (pw : ℚ) (r : TargetsSingleResult)
    (h : getTargetsSingle inp bg pw true = some r) :
    r.labels.length = inp.insideFlags.length ∧
    r.labelWeights.length = inp.insideFlags.length ∧
    (∀ j : ℕ, inp.insideFlags[j]? = some false →
      r.labels[j]? = some bg ∧ r.labelWeights[j]? = some 0) ∧
    (∀ j : ℕ, inp.insideFlags[j]? = some true →
      validRank inp.insideFlags j ∈ inp.negInds →
      r.labelWeights[j]? = some 1) := by
  by_cases hany : inp.insideFlags.any id
  · have hres : getTargetsSingle inp bg pw true = some
        { labels := unmapList inp.insideFlags
            ((List.range ((inp.insideFlags.filter id).length)).map (validLabelAt inp bg)) bg
          labelWeights := unmapList inp.insideFlags
            ((List.range ((inp.insideFlags.filter id).length)).map
              (validLabelWeightAt inp pw)) 0
          posInds := inp.posInds
          negInds := inp.negInds } := by
      simp [getTargetsSingle, hany]
    rw [hres] at h
    obtain rfl : r = _ := (Option.some.inj h).symm
    refine ⟨?_, ?_, ?_, ?_⟩
    · simpa using unmapList_length inp.insideFlags _ bg
    · simpa using unmapList_length inp.insideFlags _ (0 : ℚ)
    · intro j hj
      constructor
      · simpa using unmapList_getElem?_false inp.insideFlags _ bg j hj
      · simpa using unmapList_getElem?_false inp.insideFlags _ (0 : ℚ) j hj
    · intro j hj hneg
      have hrank := validRank_lt_numValid inp.insideFlags j hj
      have hg := unmapList_getElem?_true inp.insideFlags
        ((List.range ((inp.insideFlags.filter id).length)).map
          (validLabelWeightAt inp pw)) (0 : ℚ) j hj
      dsimp only
      rw [hg]
      congr 1
      rw [List.getD_eq_getElem?_getD, List.getElem?_map, List.getElem?_range hrank]
      simp [validLabelWeightAt, hneg]
  · exact absurd h (by simp [getTargetsSingle, hany])

/-- Witness for the amended C5 theorem: anchors [invalid, valid], the valid
anchor sampled as negative; after re-expansion the weights are [0, 1]. -/
theorem targets_reexpanded_amended_witness :
    (TargetsSingleResult.mk [80, 80] [0, 1] [] [0]).labelWeights[1]? = some 1 :=
  (targets_reexpanded_amended ⟨[false, true], [], [0], [], []⟩ 80 1
    ⟨[80, 80], [0, 1], [], [0]⟩ (by rfl)).2.2.2 1 (by rfl) (by decide)

/-- C7: the no-valid-anchor code path. The single-image sentinel is produced
as designed (a `None` result, not an exception), but its tuple has 6 slots
while the regular path returns 7, so the field-wise merge and 7-field unpack
in `get_targets` (lines 332-333) raises an unpack error before the `None`
check at line 336 can run; a well-formed image flows through normally. -/
theorem get_targets_sentinel_unpack_error :
    getTargetsSingle ⟨[false], [], [], [], []⟩ 80 1 false = none ∧
    targetsTupleLen (getTargetsSingle ⟨[false], [], [], [], []⟩ 80 1 false) = 6 ∧
    getTargets [⟨[false], [], [], [], []⟩] 80 1 false
      = Except.error "not enough values to unpack" ∧
    getTargets [⟨[true], [], [0], [], []⟩] 80 1 false
      = Except.ok (some ([⟨[80], [1], [], [0]⟩], 1)) := by
  refine ⟨rfl, rfl, rfl, ?_⟩
  simp [getTargetsSingle, validLabelAt, validLabelWeightAt, numTotalPos, getTargets,
    List.range_succ, targetsTupleLen]

/-- C6 counterexample: in inference mode (`self.training` false) the boxes
passed in for cropping are normalized in place, so the caller's tensor is
changed by the call. -/
theorem forward_boxes_mutation_counterexample :
    (protonetForwardBoxes false [⟨2, 3, 4, 5⟩] [] 10 10).2
      = [⟨1 / 5, 3 / 10, 2 / 5, 1 / 2⟩] ∧
    (protonetForwardBoxes false [⟨2, 3, 4, 5⟩] [] 10 10).2 ≠ [⟨2, 3, 4, 5⟩] := by
  constructor
  · simp [protonetForwardBoxes, normalizeBox]
    norm_num
  · simp [protonetForwardBoxes, normalizeBox]
    intro hx
    norm_num at hx

/-- C6 amended: in training mode the caller's (ground-truth) box tensor is
unchanged after the forward pass, because the positive boxes are cloned
before the in-place normalization; in inference mode the caller's (detection)
box tensor is rescaled in place by 1/width and 1/height, and the boxes used
for cropping are exactly that normalized gather. -/
theorem forward_boxes_frame (bs : List Box) (inds : List ℕ) (w h : ℚ) :
    (protonetForwardBoxes true bs inds w h).2 = bs ∧
    (protonetForwardBoxes false bs inds w h).2 = bs.map (normalizeBox w h) ∧
    (protonetForwardBoxes true bs inds w h).1
      = (inds.map (fun i => bs.getD i ⟨0, 0, 0, 0⟩)).map (normalizeBox w h) ∧
    (protonetForwardBoxes false bs inds w h).1 = bs.map (normalizeBox w h) := by
  refine ⟨rfl, rfl, rfl, rfl⟩

/-- C8: the mask loss trains `min(P, max_masks_to_train)` positives per
image, selecting through the slots of the call's random permutation when `P`
exceeds the cap, and divides every per-image loss by the batch-wide count of
trained positives with a minimum of 1. `randperm(num_pos)` always has
`num_pos` entries, which is the only fact about the permutation used. -/
theorem mask_loss_cap_and_normalizer (cap : ℕ) (imgs : List MaskImgData)
    (imgLoss : ℕ → List ℕ → ℚ)
    (hperm : ∀ d ∈ imgs, d.perm.length = d.posAssignedGtInds.length) :
    (∀ d ∈ imgs,
      maskNumPosTrained cap d = min d.posAssignedGtInds.length cap ∧
      (maskSelectedGtInds cap d).length = min d.posAssignedGtInds.length cap ∧
      (d.posAssignedGtInds.length > cap →
        maskSelectedGtInds cap d
          = (d.perm.take cap).map (fun j => d.posAssignedGtInds.getD j 0))) ∧
    maskDivisor cap imgs = max (maskTotalPos cap imgs) 1 ∧
    protonetMaskLosses cap imgs imgLoss
      = imgs.enum.map (fun p =>
          imgLoss p.1 (maskSelectedGtInds cap p.2)
            / ((max (maskTotalPos cap imgs) 1 : ℕ) : ℚ)) := by
  have hdiv : maskDivisor cap imgs = max (maskTotalPos cap imgs) 1 := by
    rw [maskDivisor]
    split <;> omega
  refine ⟨?_, hdiv, ?_⟩
  · intro d hd
    refine ⟨?_, ?_, ?_⟩
    · rw [maskNumPosTrained]
      split <;> omega
    · rw [maskSelectedGtInds]
      split
      · rw [List.length_map, List.length_take, hperm d hd]
        omega
      · omega
    · intro hgt
      rw [maskSelectedGtInds, if_pos hgt]
  · rw [protonetMaskLosses, hdiv]

/-- Witness for the C8 theorem: end-to-end scenario 4 of the spec — a cap of
2 with 5 positive instances trains exactly 2, through the permutation. -/
theorem mask_loss_cap_and_normalizer_witness :
    (maskSelectedGtInds 2 ⟨[10, 11, 12, 13, 14], [3, 0, 4, 1, 2]⟩).length
      = min ([10, 11, 12, 13, 14] : List ℕ).length 2 :=
  ((mask_loss_cap_and_normalizer 2 [⟨[10, 11, 12, 13, 14], [3, 0, 4, 1, 2]⟩]
      (fun _ _ => 0) (by decide)).1
    ⟨[10, 11, 12, 13, 14], [3, 0, 4, 1, 2]⟩ (by decide)).2.1

/-- C9 counterexample: with `use_ohem=False` the box head's loss performs no
finiteness assertion — a NaN classification score flows into the computed
losses — and even with OHEM, when target assignment returns the sentinel the
head returns `None` before any assertion fires. -/
theorem loss_finiteness_counterexample :
    yolactHeadLoss false [FVal.nan] [] (some ()) (fun _ => (0 : ℚ))
      = LossOutcome.computed 0 ∧
    FVal.nan.isFinite = false ∧
    yolactHeadLoss true [FVal.nan] [] (none : Option Unit) (fun _ => (0 : ℚ))
      = LossOutcome.noValidAnchors := by
  refine ⟨rfl, rfl, rfl⟩

/-- C9 amended: in the OHEM configuration (`use_ohem=True`, the default),
once target assignment has produced targets, any non-finite classification or
box prediction makes the loss call fail on an assertion whose outcome does
not contain any computed loss, and when every prediction is finite no
assertion fires and the losses are computed; the non-OHEM branch performs no
finiteness assertion. -/
theorem loss_finiteness_assert_amended {τ α : Type} (cls bbox : List FVal)
    (t : τ) (f : τ → α) :
    ((cls.all FVal.isFinite = false ∨ bbox.all FVal.isFinite = false) →
      yolactHeadLoss true cls bbox (some t) f
          = LossOutcome.assertFail "classification scores become infinite or NaN!" ∨
        yolactHeadLoss true cls bbox (some t) f
          = LossOutcome.assertFail "bbox predications become infinite or NaN!") ∧
    (cls.all FVal.isFinite = true → bbox.all FVal.isFinite = true →
      yolactHeadLoss true cls bbox (some t) f = LossOutcome.computed (f t)) := by
  constructor
  · intro hbad
    by_cases hc : cls.all FVal.isFinite
    · right
      rcases hbad with hbad | hbad
      · rw [hc] at hbad
        exact absurd hbad (by simp)
      · simp [yolactHeadLoss, hc, hbad]
    · left
      have hc' : cls.all FVal.isFinite = false := by
        cases hcc : cls.all FVal.isFinite
        · rfl
        · exact absurd hcc hc
      simp [yolactHeadLoss, hc']
  · intro hc hb
    simp [yolactHeadLoss, hc, hb]

/-- Witness for the amended C9 theorem: one NaN score triggers the
classification assertion; with finite scores the losses are computed. -/
theorem loss_finiteness_assert_amended_witness :
    (yolactHeadLoss true [FVal.nan] [] (some ()) (fun _ => (0 : ℚ))
        = LossOutcome.assertFail "classification scores become infinite or NaN!" ∨
      yolactHeadLoss true [FVal.nan] [] (some ()) (fun _ => (0 : ℚ))
        = LossOutcome.assertFail "bbox predications become infinite or NaN!") ∧
    yolactHeadLoss true [FVal.fin 1] [] (some ()) (fun _ => (0 : ℚ))
      = LossOutcome.computed 0 :=
  ⟨(loss_finiteness_assert_amended [FVal.nan] [] () (fun _ => (0 : ℚ))).1
      (Or.inl (by decide)),
    (loss_finiteness_assert_amended [FVal.fin 1] [] () (fun _ => (0 : ℚ))).2
      (by decide) (by decide)⟩

/-- Every real number has tanh at most 1. -/
theorem tanh_le_one_real (x : ℝ) : Real.tanh x ≤ 1 := by
  rw [Real.tanh_eq_sinh_div_cosh]
  exact (div_le_one (Real.cosh_pos x)).mpr (Real.sinh_lt_cosh x).le

/-- C10: every component of every mask-coefficient vector produced by
`forward_single` lies in the closed interval [-1, 1], because the coefficient
branch ends in `tanh`. -/
theorem coeff_pred_bounded (pre : List ℝ) (y : ℝ)
    (hy : y ∈ forwardSingleCoeff pre) : -1 ≤ y ∧ y ≤ 1 := by
  obtain ⟨x, _, rfl⟩ := List.mem_map.mp hy
  constructor
  · have h := tanh_le_one_real (-x)
    rw [Real.tanh_neg] at h
    linarith
  · exact tanh_le_one_real x

/-- Witness for the C10 theorem at the zero pre-activation. -/
theorem coeff_pred_bounded_witness :
    -1 ≤ Real.tanh 0 ∧ Real.tanh 0 ≤ 1 :=
  coeff_pred_bounded [0] (Real.tanh 0) (by simp [forwardSingleCoeff])

end Yolact
